import Mathlib

/-
Verification of the byte-window inspector scripts
(`find_error_char.py` and `check_bytes_correctly.py`).

The file contents are modelled as a `List Nat` of byte values (Python
`bytes`, each element 0-255).  Both scripts hardcode the target offset
1175; the embedding keeps the algorithms parameterised over the target
offset `t` (and over the window radii), and instantiates them at the
scripts' constants (`checkBytesEntries`, `findErrorCharTarget`) where a
claim is about the scripts' literal behaviour.
-/

namespace Inspector

/-- A byte buffer: the file contents read in binary mode, one `Nat` per byte. -/
abbrev ByteBuffer := List Nat

/-- Python `content.rfind(b'\x0a', 0, stop)`: the largest index `i < stop` with
`content[i] = 10`, as an `Option` (`none` for Python's `-1`).  Indices past the
end of the buffer never match (Python searches only the existing bytes; `getD`
returns the default `0 ≠ 10` there). -/
def rfindNL (content : ByteBuffer) : Nat → Option Nat
  | 0 => none
  | stop + 1 => if content.getD stop 0 = 10 then some stop else rfindNL content stop

/-- Forward scan helper: first index `j` with `i ≤ j < i + fuel` and
`content[j] = 10`. -/
def findNLGo (content : ByteBuffer) : Nat → Nat → Option Nat
  | _, 0 => none
  | i, fuel + 1 => if content.getD i 0 = 10 then some i else findNLGo content (i + 1) fuel

/-- Python `content.find(b'\x0a', start)`: the smallest index `j ≥ start` within
the buffer with `content[j] = 10` (`none` for Python's `-1`). -/
def findNL (content : ByteBuffer) (start : Nat) : Option Nat :=
  findNLGo content start (content.length - start)

/-- `line_start = content.rfind(b'\x0a', 0, t) + 1` from check_bytes_correctly.py
(line 20): one past the last newline strictly before `t`, or 0 when none exists
(Python's `-1 + 1`). -/
def lineStart (content : ByteBuffer) (t : Nat) : Nat :=
  match rfindNL content t with
  | some i => i + 1
  | none => 0

/-- `line_end = content.find(b'\x0a', t)`, with `-1` mapped to `len(content)`
(check_bytes_correctly.py lines 21-23): the first newline at or after `t`, or
the end of file when none exists. -/
def lineEnd (content : ByteBuffer) (t : Nat) : Nat :=
  match findNL content t with
  | some i => i
  | none => content.length

/-- `line_content = content[line_start:line_end]` (check_bytes_correctly.py
line 25). -/
def lineSlice (content : ByteBuffer) (t : Nat) : ByteBuffer :=
  (content.drop (lineStart content t)).take (lineEnd content t - lineStart content t)

/-- `offset_in_line = 1175 - line_start` (check_bytes_correctly.py line 30),
with the target offset as a parameter.  `lineStart content t ≤ t` always holds,
so the truncated `Nat` subtraction agrees with Python's integer subtraction. -/
def columnInLine (content : ByteBuffer) (t : Nat) : Nat := t - lineStart content t

/-- One lowercase hexadecimal digit, as produced by Python's `{:02x}` format. -/
def hexDigitChar (n : Nat) : Char :=
  if n < 10 then Char.ofNat (48 + n) else Char.ofNat (87 + n)

/-- The Python f-string `f'\x7b\x7b:02x\x7d\x7d'` escape `\xNN` for a byte:
a backslash, an `x`, and two lowercase hex digits. -/
def hexEscape (b : Nat) : String :=
  String.mk ['\\', 'x', hexDigitChar (b / 16), hexDigitChar (b % 16)]

/-- `char = chr(byte_val) if 32 <= byte_val <= 126 else f'\\x\x7bbyte_val:02x\x7d'`
(check_bytes_correctly.py line 15). -/
def renderByte (b : Nat) : String :=
  if 32 ≤ b ∧ b ≤ 126 then String.singleton (Char.ofNat b) else hexEscape b

/-- `char = chr(content[i])` (find_error_char.py line 22): the raw character,
whatever the byte value is. -/
def chrOf (b : Nat) : String := String.singleton (Char.ofNat b)

/-- One line of the positional listing: offset, byte value, rendered character,
and whether the offset carries the target marker (`" <<<<"` resp.
`" <<<< ERROR HERE"`). -/
structure WindowEntry where
  offset : Nat
  byteVal : Nat
  rendered : String
  isTarget : Bool
deriving DecidableEq, Repr

/-- The offsets visited by `range(max(0, t - before), min(L, t + after))`
(check_bytes_correctly.py lines 10-13 with `before = 5`, `after = 15`;
find_error_char.py line 21 with `before = 10`, `after = 11`).  In `Nat`,
`t - before` is already `max(0, t - before)`. -/
def windowIndices (L t before after : Nat) : List Nat :=
  List.range' (t - before) (min L (t + after) - (t - before))

/-- The positional listing of check_bytes_correctly.py (lines 13-17): one entry
per window offset, rendered with `renderByte`, marker exactly at `i = t`. -/
def windowEntries (content : ByteBuffer) (t before after : Nat) : List WindowEntry :=
  (windowIndices content.length t before after).map fun i =>
    ⟨i, content.getD i 0, renderByte (content.getD i 0), decide (i = t)⟩

/-- The positional listing of find_error_char.py (lines 21-26): window
`range(max(0, t - 10), min(L, t + 11))`, rendered with raw `chr`. -/
def fecEntries (content : ByteBuffer) (t : Nat) : List WindowEntry :=
  (windowIndices content.length t 10 11).map fun i =>
    ⟨i, content.getD i 0, chrOf (content.getD i 0), decide (i = t)⟩

/-- `content[1175]` from find_error_char.py lines 8-9: `some` byte when the
offset is in range, `none` when the access raises an uncaught `IndexError`. -/
def findErrorCharTarget (content : ByteBuffer) : Option Nat := content[1175]?

/-- The positional listing of check_bytes_correctly.py at its hardcoded
target offset 1175 and window `(-5, +15)`. -/
def checkBytesEntries (content : ByteBuffer) : List WindowEntry :=
  windowEntries content 1175 5 15

/-- The byte a report presents at the target offset: `content[t]`, `none`
when out of range. -/
def targetByte (content : ByteBuffer) (t : Nat) : Option Nat := content[t]?

/-- The backward line boundary as the spec words it ("the nearest newline byte
at or before `target_offset`, that newline excluded"): the search range
includes the target offset itself.  Stated only for comparison with
`lineStart`, which translates the code (`rfind(b'\x0a', 0, t)`, strictly
before `t`). -/
def lineStartSpec (content : ByteBuffer) (t : Nat) : Nat :=
  match rfindNL content (t + 1) with
  | some i => i + 1
  | none => 0

/-- The scenario buffer `b"abc\x0adef\x0a"` from the spec's testable
properties. -/
def scenario : ByteBuffer := [97, 98, 99, 10, 100, 101, 102, 10]

/-- Lower bound for the second byte of a three-byte UTF-8 sequence
(0xE0 starts at 0xA0 to exclude overlong encodings). -/
def cont3lo (b1 : Nat) : Nat := if b1 = 224 then 160 else 128

/-- Upper bound for the second byte of a three-byte UTF-8 sequence
(0xED stops at 0x9F to exclude surrogates). -/
def cont3hi (b1 : Nat) : Nat := if b1 = 237 then 159 else 191

/-- Lower bound for the second byte of a four-byte UTF-8 sequence
(0xF0 starts at 0x90 to exclude overlong encodings). -/
def cont4lo (b1 : Nat) : Nat := if b1 = 240 then 144 else 128

/-- Upper bound for the second byte of a four-byte UTF-8 sequence
(0xF4 stops at 0x8F to exclude code points above U+10FFFF). -/
def cont4hi (b1 : Nat) : Nat := if b1 = 244 then 143 else 191

/-- Code point of a two-byte UTF-8 sequence. -/
def cp2 (b1 b2 : Nat) : Nat := (b1 - 192) * 64 + (b2 - 128)

/-- Code point of a three-byte UTF-8 sequence. -/
def cp3 (b1 b2 b3 : Nat) : Nat := (b1 - 224) * 4096 + (b2 - 128) * 64 + (b3 - 128)

/-- Code point of a four-byte UTF-8 sequence. -/
def cp4 (b1 b2 b3 b4 : Nat) : Nat :=
  (b1 - 240) * 262144 + (b2 - 128) * 4096 + (b3 - 128) * 64 + (b4 - 128)

/-- Python `bytes.decode('utf-8', errors='replace')` (check_bytes_correctly.py
line 27, find_error_char.py line 17), as a list of code points: each maximal
subpart of an ill-formed subsequence is replaced with one U+FFFD (65533), the
placeholder glyph, and decoding continues at the first byte not part of that
subpart.  Total: decoding never fails. -/
def decodeReplace : List Nat → List Nat
  | [] => []
  | b1 :: rest =>
    if b1 < 128 then b1 :: decodeReplace rest
    else if 194 ≤ b1 ∧ b1 ≤ 223 then
      match rest with
      | [] => [65533]
      | b2 :: rest2 =>
        if 128 ≤ b2 ∧ b2 ≤ 191 then cp2 b1 b2 :: decodeReplace rest2
        else 65533 :: decodeReplace (b2 :: rest2)
    else if 224 ≤ b1 ∧ b1 ≤ 239 then
      match rest with
      | [] => [65533]
      | b2 :: rest2 =>
        if cont3lo b1 ≤ b2 ∧ b2 ≤ cont3hi b1 then
          match rest2 with
          | [] => [65533]
          | b3 :: rest3 =>
            if 128 ≤ b3 ∧ b3 ≤ 191 then cp3 b1 b2 b3 :: decodeReplace rest3
            else 65533 :: decodeReplace (b3 :: rest3)
        else 65533 :: decodeReplace (b2 :: rest2)
    else if 240 ≤ b1 ∧ b1 ≤ 244 then
      match rest with
      | [] => [65533]
      | b2 :: rest2 =>
        if cont4lo b1 ≤ b2 ∧ b2 ≤ cont4hi b1 then
          match rest2 with
          | [] => [65533]
          | b3 :: rest3 =>
            if 128 ≤ b3 ∧ b3 ≤ 191 then
              match rest3 with
              | [] => [65533]
              | b4 :: rest4 =>
                if 128 ≤ b4 ∧ b4 ≤ 191 then cp4 b1 b2 b3 b4 :: decodeReplace rest4
                else 65533 :: decodeReplace (b4 :: rest4)
            else 65533 :: decodeReplace (b3 :: rest3)
        else 65533 :: decodeReplace (b2 :: rest2)
    else 65533 :: decodeReplace rest

/-- Strict UTF-8 decoding (Python `bytes.decode('utf-8')` with the default
`errors='strict'`): `none` exactly when the input is not valid UTF-8.  Used
only to state what "valid text" means for `decodeReplace`. -/
def decodeStrict : List Nat → Option (List Nat)
  | [] => some []
  | b1 :: rest =>
    if b1 < 128 then (decodeStrict rest).map (fun cs => b1 :: cs)
    else if 194 ≤ b1 ∧ b1 ≤ 223 then
      match rest with
      | [] => none
      | b2 :: rest2 =>
        if 128 ≤ b2 ∧ b2 ≤ 191 then (decodeStrict rest2).map (fun cs => cp2 b1 b2 :: cs)
        else none
    else if 224 ≤ b1 ∧ b1 ≤ 239 then
      match rest with
      | [] => none
      | b2 :: rest2 =>
        if cont3lo b1 ≤ b2 ∧ b2 ≤ cont3hi b1 then
          match rest2 with
          | [] => none
          | b3 :: rest3 =>
            if 128 ≤ b3 ∧ b3 ≤ 191 then (decodeStrict rest3).map (fun cs => cp3 b1 b2 b3 :: cs)
            else none
        else none
    else if 240 ≤ b1 ∧ b1 ≤ 244 then
      match rest with
      | [] => none
      | b2 :: rest2 =>
        if cont4lo b1 ≤ b2 ∧ b2 ≤ cont4hi b1 then
          match rest2 with
          | [] => none
          | b3 :: rest3 =>
            if 128 ≤ b3 ∧ b3 ≤ 191 then
              match rest3 with
              | [] => none
              | b4 :: rest4 =>
                if 128 ≤ b4 ∧ b4 ≤ 191 then
                  (decodeStrict rest4).map (fun cs => cp4 b1 b2 b3 b4 :: cs)
                else none
            else none
        else none
    else none

/-- The backward scan finds nothing exactly when no byte before `stop` is a
newline. -/
theorem rfindNL_eq_none (content : ByteBuffer) :
    ∀ stop, rfindNL content stop = none ↔ ∀ j, j < stop → content.getD j 0 ≠ 10 := by
  intro stop
  induction stop with
  | zero =>
    constructor
    · intro _ j hj
      omega
    · intro _
      rfl
  | succ n ih =>
    rw [rfindNL]
    by_cases h : content.getD n 0 = 10
    · rw [if_pos h]
      constructor
      · intro hc
        exact Option.noConfusion hc
      · intro hall
        exact absurd h (hall n (Nat.lt_succ_self n))
    · rw [if_neg h, ih]
      constructor
      · intro hall j hj
        rcases Nat.lt_succ_iff_lt_or_eq.mp hj with h1 | h1
        · exact hall j h1
        · rw [h1]
          exact h
      · intro hall j hj
        exact hall j (Nat.lt_succ_of_lt hj)

/-- What the backward scan returns: the newline found is the last one strictly
before `stop`. -/
theorem rfindNL_eq_some (content : ByteBuffer) :
    ∀ stop i, rfindNL content stop = some i →
      i < stop ∧ content.getD i 0 = 10 ∧ ∀ j, i < j → j < stop → content.getD j 0 ≠ 10 := by
  intro stop
  induction stop with
  | zero =>
    intro i h
    exact Option.noConfusion h
  | succ n ih =>
    intro i h
    rw [rfindNL] at h
    by_cases hn : content.getD n 0 = 10
    · rw [if_pos hn] at h
      injection h with h
      subst h
      refine ⟨by omega, hn, ?_⟩
      intro j h1 h2
      omega
    · rw [if_neg hn] at h
      obtain ⟨h1, h2, h3⟩ := ih i h
      refine ⟨Nat.lt_succ_of_lt h1, h2, ?_⟩
      intro j hj1 hj2
      rcases Nat.lt_succ_iff_lt_or_eq.mp hj2 with h4 | h4
      · exact h3 j hj1 h4
      · rw [h4]
        exact hn

/-- The forward scan helper finds nothing exactly when no byte in its fuel
range is a newline. -/
theorem findNLGo_eq_none (content : ByteBuffer) :
    ∀ fuel i, findNLGo content i fuel = none ↔
      ∀ j, i ≤ j → j < i + fuel → content.getD j 0 ≠ 10 := by
  intro fuel
  induction fuel with
  | zero =>
    intro i
    constructor
    · intro _ j h1 h2
      omega
    · intro _
      rfl
  | succ n ih =>
    intro i
    rw [findNLGo]
    by_cases h : content.getD i 0 = 10
    · rw [if_pos h]
      constructor
      · intro hc
        exact Option.noConfusion hc
      · intro hall
        exact absurd h (hall i (Nat.le_refl i) (by omega))
    · rw [if_neg h, ih (i + 1)]
      constructor
      · intro hall j h1 h2
        rcases Nat.eq_or_lt_of_le h1 with h3 | h3
        · rw [← h3]
          exact h
        · exact hall j h3 (by omega)
      · intro hall j h1 h2
        exact hall j (by omega) (by omega)

/-- What the forward scan helper returns: the first newline in its fuel
range. -/
theorem findNLGo_eq_some (content : ByteBuffer) :
    ∀ fuel i k, findNLGo content i fuel = some k →
      i ≤ k ∧ k < i + fuel ∧ content.getD k 0 = 10 ∧
        ∀ j, i ≤ j → j < k → content.getD j 0 ≠ 10 := by
  intro fuel
  induction fuel with
  | zero =>
    intro i k h
    exact Option.noConfusion h
  | succ n ih =>
    intro i k h
    rw [findNLGo] at h
    by_cases hi : content.getD i 0 = 10
    · rw [if_pos hi] at h
      injection h with h
      subst h
      refine ⟨by omega, by omega, hi, ?_⟩
      intro j h1 h2
      omega
    · rw [if_neg hi] at h
      obtain ⟨h1, h2, h3, h4⟩ := ih (i + 1) k h
      refine ⟨by omega, by omega, h3, ?_⟩
      intro j hj1 hj2
      rcases Nat.eq_or_lt_of_le hj1 with h5 | h5
      · rw [← h5]
        exact hi
      · exact h4 j (by omega) hj2

/-- `content.find(b'\x0a', start)` fails exactly when no byte at or after
`start` is a newline. -/
theorem findNL_eq_none (content : ByteBuffer) (start : Nat) :
    findNL content start = none ↔
      ∀ j, start ≤ j → j < content.length → content.getD j 0 ≠ 10 := by
  rw [findNL, findNLGo_eq_none]
  constructor
  · intro h j h1 h2
    exact h j h1 (by omega)
  · intro h j h1 h2
    exact h j h1 (by omega)

/-- What `content.find(b'\x0a', start)` returns: the first newline at or after
`start`, within the buffer. -/
theorem findNL_eq_some (content : ByteBuffer) (start k : Nat)
    (h : findNL content start = some k) :
    start ≤ k ∧ k < content.length ∧ content.getD k 0 = 10 ∧
      ∀ j, start ≤ j → j < k → content.getD j 0 ≠ 10 := by
  rw [findNL] at h
  obtain ⟨h1, h2, h3, h4⟩ := findNLGo_eq_some content _ start k h
  exact ⟨h1, by omega, h3, h4⟩

/-- A matched newline lies inside the buffer (out-of-range reads give the
default `0 ≠ 10`). -/
theorem lt_length_of_getD_nl (content : ByteBuffer) (i : Nat)
    (h : content.getD i 0 = 10) : i < content.length := by
  by_contra hc
  rw [List.getD_eq_getElem?_getD, List.getElem?_eq_none (by omega)] at h
  exact absurd h (by simp)

/-- `lineStart` unfolded when the backward scan fails. -/
theorem lineStart_of_none (content : ByteBuffer) (t : Nat)
    (h : rfindNL content t = none) : lineStart content t = 0 := by
  rw [lineStart, h]

/-- `lineStart` unfolded when the backward scan matches. -/
theorem lineStart_of_some (content : ByteBuffer) (t i : Nat)
    (h : rfindNL content t = some i) : lineStart content t = i + 1 := by
  rw [lineStart, h]

/-- `lineEnd` unfolded when the forward scan fails. -/
theorem lineEnd_of_none (content : ByteBuffer) (t : Nat)
    (h : findNL content t = none) : lineEnd content t = content.length := by
  rw [lineEnd, h]

/-- `lineEnd` unfolded when the forward scan matches. -/
theorem lineEnd_of_some (content : ByteBuffer) (t k : Nat)
    (h : findNL content t = some k) : lineEnd content t = k := by
  rw [lineEnd, h]

/-- The line start never passes the target offset. -/
theorem lineStart_le (content : ByteBuffer) (t : Nat) : lineStart content t ≤ t := by
  cases h : rfindNL content t with
  | none =>
    rw [lineStart_of_none content t h]
    omega
  | some i =>
    rw [lineStart_of_some content t i h]
    have := (rfindNL_eq_some content t i h).1
    omega

/-- The line start never passes the end of the buffer. -/
theorem lineStart_le_length (content : ByteBuffer) (t : Nat) :
    lineStart content t ≤ content.length := by
  cases h : rfindNL content t with
  | none =>
    rw [lineStart_of_none content t h]
    omega
  | some i =>
    rw [lineStart_of_some content t i h]
    have h2 := (rfindNL_eq_some content t i h).2.1
    have := lt_length_of_getD_nl content i h2
    omega

/-- The line end never passes the end of the buffer. -/
theorem lineEnd_le_length (content : ByteBuffer) (t : Nat) :
    lineEnd content t ≤ content.length := by
  cases h : findNL content t with
  | none =>
    rw [lineEnd_of_none content t h]
  | some k =>
    rw [lineEnd_of_some content t k h]
    have := (findNL_eq_some content t k h).2.1
    omega

/-- The line boundaries are ordered. -/
theorem lineStart_le_lineEnd (content : ByteBuffer) (t : Nat) :
    lineStart content t ≤ lineEnd content t := by
  have h1 := lineStart_le content t
  have h2 := lineStart_le_length content t
  cases h : findNL content t with
  | none =>
    rw [lineEnd_of_none content t h]
    omega
  | some k =>
    rw [lineEnd_of_some content t k h]
    have := (findNL_eq_some content t k h).1
    omega

/-- When the target offset is inside the buffer, the line end is at or after
it. -/
theorem le_lineEnd (content : ByteBuffer) (t : Nat) (h : t ≤ content.length) :
    t ≤ lineEnd content t := by
  cases hf : findNL content t with
  | none =>
    rw [lineEnd_of_none content t hf]
    omega
  | some k =>
    rw [lineEnd_of_some content t k hf]
    exact (findNL_eq_some content t k hf).1

/-- No newline sits between the line start and the target offset. -/
theorem no_nl_before (content : ByteBuffer) (t : Nat) :
    ∀ j, lineStart content t ≤ j → j < t → content.getD j 0 ≠ 10 := by
  intro j h1 h2
  cases h : rfindNL content t with
  | none => exact (rfindNL_eq_none content t).mp h j h2
  | some i =>
    rw [lineStart_of_some content t i h] at h1
    exact (rfindNL_eq_some content t i h).2.2 j (by omega) h2

/-- No newline sits between the target offset and the line end. -/
theorem no_nl_after (content : ByteBuffer) (t : Nat) :
    ∀ j, t ≤ j → j < lineEnd content t → content.getD j 0 ≠ 10 := by
  intro j h1 h2
  cases h : findNL content t with
  | none =>
    rw [lineEnd_of_none content t h] at h2
    exact (findNL_eq_none content t).mp h j h1 h2
  | some k =>
    rw [lineEnd_of_some content t k h] at h2
    exact (findNL_eq_some content t k h).2.2.2 j h1 h2

/-- Window membership: exactly the offsets from `max(0, t - before)` up to but
excluding `min(L, t + after)`. -/
theorem mem_windowIndices (L t before after i : Nat) :
    i ∈ windowIndices L t before after ↔ t - before ≤ i ∧ i < min L (t + after) := by
  rw [windowIndices, List.mem_range'_1]
  omega

/-- Filtering a run of consecutive integers for one value it contains leaves
exactly that value. -/
theorem range'_filter_eq_single (t : Nat) :
    ∀ n s, s ≤ t → t < s + n →
      (List.range' s n).filter (fun i => decide (i = t)) = [t] := by
  intro n
  induction n with
  | zero =>
    intro s h1 h2
    omega
  | succ n ih =>
    intro s h1 h2
    rw [List.range'_succ]
    rcases Nat.eq_or_lt_of_le h1 with h3 | h3
    · subst h3
      rw [List.filter_cons_of_pos (by simp)]
      have : ∀ a ∈ List.range' (s + 1) n, ¬ (fun i => decide (i = s)) a = true := by
        intro a ha
        rw [List.mem_range'_1] at ha
        simp only [decide_eq_true_eq]
        omega
      rw [List.filter_eq_nil_iff.mpr this]
    · rw [List.filter_cons_of_neg (by simp; omega)]
      exact ih (s + 1) (by omega) (by omega)

/-- A hex escape always has four characters. -/
theorem hexEscape_length (b : Nat) : (hexEscape b).length = 4 := rfl

/-- A literal-character rendering has one character. -/
theorem singleton_length (c : Char) : (String.singleton c).length = 1 := rfl

/-- An entry of the check_bytes_correctly.py listing has its window offset in
bounds, carries the byte stored there, and is flagged exactly at the target. -/
theorem mem_windowEntries_elim (content : ByteBuffer) (t before after : Nat)
    (e : WindowEntry) (he : e ∈ windowEntries content t before after) :
    e.offset ∈ windowIndices content.length t before after ∧
      e.byteVal = content.getD e.offset 0 ∧
      e.rendered = renderByte e.byteVal ∧ e.isTarget = decide (e.offset = t) := by
  rw [windowEntries, List.mem_map] at he
  obtain ⟨i, hi, rfl⟩ := he
  exact ⟨hi, rfl, rfl, rfl⟩

end Inspector

namespace Inspector

/-- C10: for every file content (and any target offset), the computed line
boundaries satisfy `0 ≤ line_start ≤ line_end ≤ length`, so the
containing-line slice is always well formed, and the extracted containing
line never contains a newline byte. -/
theorem c10_line_slice_invariants (content : ByteBuffer) (t : Nat) :
    lineStart content t ≤ lineEnd content t ∧
      lineEnd content t ≤ content.length ∧
      (10 : Nat) ∉ lineSlice content t := by
  refine ⟨lineStart_le_lineEnd content t, lineEnd_le_length content t, ?_⟩
  intro hmem
  rw [lineSlice, List.mem_iff_getElem?] at hmem
  obtain ⟨i, hi⟩ := hmem
  rw [List.getElem?_take] at hi
  by_cases hlt : i < lineEnd content t - lineStart content t
  · rw [if_pos hlt, List.getElem?_drop] at hi
    obtain ⟨hb, hv⟩ := List.getElem?_eq_some_iff.mp hi
    have hd : content.getD (lineStart content t + i) 0 = 10 := by
      rw [List.getD_eq_getElem?_getD, hi]
      rfl
    by_cases hj : lineStart content t + i < t
    · exact no_nl_before content t (lineStart content t + i) (by omega) hj hd
    · exact no_nl_after content t (lineStart content t + i) (by omega) (by omega) hd
  · rw [if_neg hlt] at hi
    exact Option.noConfusion hi

/-- C10 witness: the containing line of the scenario buffer holds no newline
byte. -/
theorem c10_line_slice_invariants_witness : (10 : Nat) ∉ lineSlice scenario 5 :=
  (c10_line_slice_invariants scenario 5).2.2

/-- C7: for every file content and every valid target offset, the reported
column in line equals the target offset minus the line start offset, and
`0 ≤ column_in_line ≤ len(containing_line)` (the lower bound is inherent in
`Nat`; the subtraction is faithful because `lineStart ≤ t`). -/
theorem c7_column_in_line (content : ByteBuffer) (t : Nat) (h : t < content.length) :
    lineStart content t ≤ t ∧
      columnInLine content t = t - lineStart content t ∧
      (lineSlice content t).length = lineEnd content t - lineStart content t ∧
      columnInLine content t ≤ (lineSlice content t).length := by
  have hs := lineStart_le content t
  have he := le_lineEnd content t (by omega)
  have hl := lineEnd_le_length content t
  have hslice : (lineSlice content t).length = lineEnd content t - lineStart content t := by
    rw [lineSlice, List.length_take, List.length_drop]
    omega
  refine ⟨hs, rfl, hslice, ?_⟩
  rw [hslice, columnInLine]
  omega

/-- C7 witness: in the scenario buffer at offset 5 the column is the offset
minus the line start and is bounded by the line length. -/
theorem c7_column_in_line_witness :
    columnInLine scenario 5 ≤ (lineSlice scenario 5).length :=
  (c7_column_in_line scenario 5 (by decide)).2.2.2

/-- C9: in check_bytes_correctly.py every indexed byte access is in bounds for
every file content (the window bounds are clamped before any indexing), each
listed entry carries the byte actually stored at its offset, and for contents
of length at most 1170 the window listing is empty, the script completing
normally. -/
theorem c9_in_bounds (content : ByteBuffer) :
    (∀ e ∈ checkBytesEntries content,
      e.offset < content.length ∧ e.byteVal = content.getD e.offset 0) ∧
      (content.length ≤ 1170 → checkBytesEntries content = []) := by
  constructor
  · intro e he
    obtain ⟨hi, hv, _, _⟩ := mem_windowEntries_elim content 1175 5 15 e he
    rw [mem_windowIndices] at hi
    exact ⟨by omega, hv⟩
  · intro h1170
    rw [checkBytesEntries, windowEntries, windowIndices]
    have hz : min content.length (1175 + 15) - (1175 - 5) = 0 := by omega
    rw [hz]
    rfl

/-- C9 witness: on a one-byte file the check_bytes_correctly.py listing is
empty. -/
theorem c9_in_bounds_witness : checkBytesEntries [97] = [] :=
  (c9_in_bounds [97]).2 (by decide)

/-- C3 as amended: the window entries are ordered and cover exactly the
half-open range `[max(0, t - before), min(L, t + after))`; for
check_bytes_correctly.py `before = 5` and `after = 15`, which is not a
symmetric radius. -/
theorem c3_window_coverage (content : ByteBuffer) (t before after : Nat) :
    (windowEntries content t before after).map WindowEntry.offset
        = windowIndices content.length t before after ∧
      List.Pairwise (· < ·) (windowIndices content.length t before after) ∧
      ∀ i, i ∈ windowIndices content.length t before after ↔
        t - before ≤ i ∧ i < min content.length (t + after) := by
  refine ⟨?_, ?_, fun i => mem_windowIndices content.length t before after i⟩
  · rw [windowEntries, List.map_map]
    exact List.map_id _
  · rw [windowIndices]
    exact List.pairwise_lt_range' _ _

/-- C3 witness: offset 7 lies in the check_bytes-style window around target 5
of a 20-byte file. -/
theorem c3_window_coverage_witness : (7 : Nat) ∈ windowIndices 20 5 5 15 :=
  ((c3_window_coverage (List.replicate 20 97) 5 5 15).2.2 7).mpr (by decide)

/-- C3 counterexample: with a 100-byte file and target 20 the
check_bytes_correctly.py window holds 5 entries before the target but 14
after it, although neither bound is clamped (`t - 5 > 0` and
`t + 15 < 100`), so no symmetric radius `w` describes the range. -/
theorem c3_counterexample :
    ((windowIndices 100 20 5 15).filter (fun i => decide (i < 20))).length = 5 ∧
      ((windowIndices 100 20 5 15).filter (fun i => decide (20 < i))).length = 14 ∧
      (0 : Nat) < 20 - 5 ∧ 20 + 15 < 100 ∧ (5 : Nat) ≠ 14 := by
  decide

/-- C4 as amended: the backward boundary is one past the nearest newline
STRICTLY before the target offset (line start 0 when none exists); the
forward boundary is the nearest newline at or after the target offset (end of
file when none exists); in particular, when the byte at the target offset is
itself a newline it is the FORWARD boundary (`lineEnd = t`), not the backward
one. -/
theorem c4_line_boundaries (content : ByteBuffer) (t : Nat) :
    (∀ j, lineStart content t ≤ j → j < t → content.getD j 0 ≠ 10) ∧
      (lineStart content t = 0 ∨
        (lineStart content t - 1 < t ∧ content.getD (lineStart content t - 1) 0 = 10)) ∧
      (∀ j, t ≤ j → j < lineEnd content t → content.getD j 0 ≠ 10) ∧
      (lineEnd content t = content.length ∨
        (t ≤ lineEnd content t ∧ lineEnd content t < content.length ∧
          content.getD (lineEnd content t) 0 = 10)) ∧
      (t < content.length → content.getD t 0 = 10 → lineEnd content t = t) := by
  refine ⟨no_nl_before content t, ?_, no_nl_after content t, ?_, ?_⟩
  · cases h : rfindNL content t with
    | none => exact Or.inl (lineStart_of_none content t h)
    | some i =>
      obtain ⟨h1, h2, _⟩ := rfindNL_eq_some content t i h
      rw [lineStart_of_some content t i h]
      exact Or.inr ⟨by omega, by simpa using h2⟩
  · cases h : findNL content t with
    | none => exact Or.inl (lineEnd_of_none content t h)
    | some k =>
      obtain ⟨h1, h2, h3, _⟩ := findNL_eq_some content t k h
      rw [lineEnd_of_some content t k h]
      exact Or.inr ⟨h1, h2, h3⟩
  · intro hlt h10
    have hf : findNL content t = some t := by
      rw [findNL]
      have hfuel : content.length - t = (content.length - t - 1) + 1 := by omega
      rw [hfuel, findNLGo, if_pos h10]
    exact lineEnd_of_some content t t hf

/-- C4 witness: on the scenario buffer at offset 5 the line end is at or
after the offset or at end of file. -/
theorem c4_line_boundaries_witness :
    lineEnd scenario 5 = scenario.length ∨
      (5 ≤ lineEnd scenario 5 ∧ lineEnd scenario 5 < scenario.length ∧
        scenario.getD (lineEnd scenario 5) 0 = 10) :=
  (c4_line_boundaries scenario 5).2.2.2.1

/-- C4 counterexample: on `[97, 98, 10, 99]` with target offset 2, whose byte
IS a newline, the code's backward search (`rfind` strictly before the
target) yields line start 0, while the claim's "nearest newline at or before
the target offset" boundary would yield line start 3. -/
theorem c4_counterexample :
    List.getD [97, 98, 10, 99] 2 0 = 10 ∧
      lineStart [97, 98, 10, 99] 2 = 0 ∧
      lineStartSpec [97, 98, 10, 99] 2 = 3 ∧
      lineStart [97, 98, 10, 99] 2 ≠ lineStartSpec [97, 98, 10, 99] 2 := by
  decide

/-- C6 as amended: whenever the target offset is a valid index
(`t < length`), the window listing is non-empty and contains exactly one
flagged entry, the one at the target offset; for `t ≥ length` the listing can
be empty or hold no flagged entry (see the counterexample). -/
theorem c6_window_flagging (content : ByteBuffer) (t : Nat) (ht : t < content.length) :
    windowEntries content t 5 15 ≠ [] ∧
      (windowEntries content t 5 15).filter (fun e => e.isTarget) =
        [⟨t, content.getD t 0, renderByte (content.getD t 0), true⟩] := by
  have htmem : t ∈ windowIndices content.length t 5 15 := by
    rw [mem_windowIndices]
    omega
  constructor
  · rw [windowEntries]
    exact List.ne_nil_of_mem (List.mem_map.mpr ⟨t, htmem, rfl⟩)
  · rw [windowEntries, List.filter_map]
    have hcomp : ((fun e => e.isTarget) ∘ fun i =>
        (⟨i, content.getD i 0, renderByte (content.getD i 0), decide (i = t)⟩ : WindowEntry))
        = fun i => decide (i = t) := rfl
    rw [hcomp]
    have hfil := range'_filter_eq_single t
      (min content.length (t + 15) - (t - 5)) (t - 5) (by omega) (by omega)
    rw [windowIndices, hfil]
    simp

/-- C6 witness: on a two-byte file with target offset 1 the listing is
non-empty. -/
theorem c6_window_flagging_witness : windowEntries [97, 98] 1 5 15 ≠ [] :=
  (c6_window_flagging [97, 98] 1 (by decide)).1

/-- C6 counterexample: the file `[97]` has positive length, yet with target
offset 1 the window listing (one entry, offset 0) holds no flagged entry at
all, and the actual script window (target 1175) is outright empty — not
"non-empty with exactly one flagged entry". -/
theorem c6_counterexample :
    0 < ([97] : ByteBuffer).length ∧
      (windowEntries [97] 1 5 15).length = 1 ∧
      (windowEntries [97] 1 5 15).filter (fun e => e.isTarget) = [] ∧
      checkBytesEntries [97] = [] := by
  decide

/-- C1 as amended: when `target_offset = 1175 ≥ length`, find_error_char.py
aborts with an uncaught `IndexError` at its first byte access (modelled:
`none`) instead of reporting an explicit `OffsetOutOfRange`, while
check_bytes_correctly.py completes normally, its listing carrying no flagged
entry at all and being empty whenever `length ≤ 1170`; neither script
produces an `OffsetOutOfRange` error. -/
theorem c1_out_of_range_behavior (content : ByteBuffer) (h : content.length ≤ 1175) :
    findErrorCharTarget content = none ∧
      (∀ e ∈ checkBytesEntries content, e.isTarget = false) ∧
      (content.length ≤ 1170 → checkBytesEntries content = []) := by
  refine ⟨?_, ?_, (c9_in_bounds content).2⟩
  · rw [findErrorCharTarget]
    exact List.getElem?_eq_none h
  · intro e he
    obtain ⟨hi, _, _, hflag⟩ := mem_windowEntries_elim content 1175 5 15 e he
    rw [mem_windowIndices] at hi
    rw [hflag, decide_eq_false_iff_not]
    omega

/-- C1 witness: on the empty file find_error_char.py's target access is out
of bounds. -/
theorem c1_out_of_range_behavior_witness : findErrorCharTarget [] = none :=
  (c1_out_of_range_behavior [] (by decide)).1

set_option maxRecDepth 8000 in
/-- C1 counterexample: on the empty file (offset 1175 ≥ length 0)
find_error_char.py's target access yields no value (an uncaught `IndexError`,
not an `OffsetOutOfRange` failure), and check_bytes_correctly.py completes
normally, producing its full output with an empty window listing — the very
outcomes the claim excludes. -/
theorem c1_counterexample :
    findErrorCharTarget [] = none ∧
      checkBytesEntries [] = [] ∧
      lineSlice [] 1175 = [] ∧
      columnInLine [] 1175 = 1175 := by
  decide

/-- C5: the report's target byte is the byte actually stored at the target
offset, and on the scenario buffer `b"abc\x0adef\x0a"` with target offset 5
the target byte is 101 (`'e'`, rendered literally), the containing line
decodes to `"def"` (code points [100, 101, 102]), and the column in line
is 1. -/
theorem c5_target_byte :
    (∀ (content : ByteBuffer) (t : Nat) (h : t < content.length),
      targetByte content t = some (content.get ⟨t, h⟩)) ∧
      targetByte scenario 5 = some 101 ∧
      renderByte 101 = String.singleton (Char.ofNat 101) ∧
      lineSlice scenario 5 = [100, 101, 102] ∧
      decodeReplace (lineSlice scenario 5) = [100, 101, 102] ∧
      columnInLine scenario 5 = 1 := by
  refine ⟨?_, by decide, by decide, by decide, by decide, by decide⟩
  intro content t h
  rw [targetByte, List.get_eq_getElem]
  exact List.getElem?_eq_getElem h

/-- C5 witness: the scenario buffer's byte at offset 5 is what the report
presents. -/
theorem c5_target_byte_witness :
    targetByte scenario 5 = some (scenario.get ⟨5, by decide⟩) :=
  c5_target_byte.1 scenario 5 (by decide)

/-- C2 as amended: in check_bytes_correctly.py a byte is rendered as the
literal character exactly when `32 ≤ b ≤ 126` and as the four-character
`\xNN` escape otherwise (so never as the raw character there), but
find_error_char.py's positional listing renders EVERY byte — newline
included — as the raw `chr` character. -/
theorem c2_rendering :
    (∀ b : Nat,
      (renderByte b = String.singleton (Char.ofNat b) ↔ 32 ≤ b ∧ b ≤ 126) ∧
        (¬(32 ≤ b ∧ b ≤ 126) → renderByte b = hexEscape b)) ∧
      ∀ (content : ByteBuffer) (t : Nat), ∀ e ∈ fecEntries content t,
        e.rendered = chrOf e.byteVal := by
  constructor
  · intro b
    by_cases hp : 32 ≤ b ∧ b ≤ 126
    · rw [renderByte, if_pos hp]
      exact ⟨⟨fun _ => hp, fun _ => rfl⟩, fun hc => absurd hp hc⟩
    · rw [renderByte, if_neg hp]
      refine ⟨⟨fun heq => ?_, fun hple => absurd hple hp⟩, fun _ => rfl⟩
      have hlen := congrArg String.length heq
      rw [hexEscape_length, singleton_length] at hlen
      exact absurd hlen (by decide)
  · intro content t e he
    rw [fecEntries, List.mem_map] at he
    obtain ⟨i, _, rfl⟩ := he
    rfl

/-- C2 witness: the newline byte is not printable, so check_bytes_correctly.py
renders it as its hex escape. -/
theorem c2_rendering_witness : renderByte 10 = hexEscape 10 :=
  (c2_rendering.1 10).2 (by decide)

/-- C2 counterexample: in find_error_char.py's positional listing the newline
byte 0x0a is rendered as the literal newline character, not as the two-digit
hexadecimal escape, contradicting "never as the raw character". -/
theorem c2_counterexample :
    fecEntries [10] 0 = [⟨0, 10, String.singleton (Char.ofNat 10), true⟩] ∧
      String.singleton (Char.ofNat 10) = "\n" ∧
      String.singleton (Char.ofNat 10) ≠ hexEscape 10 := by
  decide

set_option maxRecDepth 4000 in
/-- On valid UTF-8 input the replacement decoder agrees with strict
decoding. -/
theorem decodeReplace_of_strict :
    ∀ (bs cs : List Nat), decodeStrict bs = some cs → decodeReplace bs = cs := by
  intro bs
  induction bs using decodeReplace.induct
  case case1 =>
    intro cs h
    rw [decodeStrict.eq_def] at h
    exact Option.some.inj h
  all_goals rename_i ih
  all_goals intro cs h
  all_goals rw [decodeStrict.eq_def] at h
  all_goals rw [decodeReplace.eq_def]
  all_goals dsimp only at h ⊢
  all_goals try split_ifs at h ⊢
  all_goals obtain ⟨a, ha, rfl⟩ := Option.map_eq_some'.mp h
  all_goals exact congrArg (List.cons _) (ih a ha)

set_option maxRecDepth 4000 in
/-- On input that is not valid UTF-8 the replacement decoder still returns a
result, containing the placeholder code point U+FFFD. -/
theorem decodeReplace_of_invalid :
    ∀ bs : List Nat, decodeStrict bs = none → 65533 ∈ decodeReplace bs := by
  intro bs
  induction bs using decodeReplace.induct
  case case1 =>
    intro h
    rw [decodeStrict.eq_def] at h
    exact Option.noConfusion h
  all_goals rename_i ih
  all_goals intro h
  all_goals rw [decodeStrict.eq_def] at h
  all_goals rw [decodeReplace.eq_def]
  all_goals dsimp only at h ⊢
  all_goals try split_ifs at h ⊢
  all_goals try exact List.Mem.head _
  all_goals exact List.mem_cons_of_mem _ (ih (Option.map_eq_none'.mp h))

/-- C8: decoding with the replacement policy never fails — it is a total
function that reproduces the strict decoding on every valid byte sequence,
and on every byte sequence that is not valid text it still produces a result,
substituting the placeholder glyph U+FFFD (65533), so the report is produced
in full. -/
theorem c8_decode_replace :
    (∀ (bs cs : List Nat), decodeStrict bs = some cs → decodeReplace bs = cs) ∧
      ∀ bs : List Nat, decodeStrict bs = none → 65533 ∈ decodeReplace bs :=
  ⟨decodeReplace_of_strict, decodeReplace_of_invalid⟩

/-- C8 witness: the euro sign's valid encoding decodes exactly, and the lone
continuation byte 0x80 is replaced by the placeholder, not a failure. -/
theorem c8_decode_replace_witness :
    decodeReplace [226, 130, 172] = [8364] ∧ 65533 ∈ decodeReplace [128] :=
  ⟨c8_decode_replace.1 [226, 130, 172] [8364] (by decide),
    c8_decode_replace.2 [128] (by decide)⟩

end Inspector
